import Mathlib

/-!
Shallow embedding of the `create-release-hub` CLI (the bin entry point of the
repository).  The CLI is a single sequential run: it checks for an existing
release configuration, detects the project's package manager, optionally
installs the `release-hub` library, interactively assembles a configuration
object, and writes it as JSON.

The embedding models:
* the external world consulted by the run (lockfile presence, the parsed
  project manifest, the user-agent environment hint, the config glob result,
  the install subprocess outcome, the config write outcome) as a `World`;
* the user's prompt responses as a finite script (`List Ans`): each prompt
  consumes the next entry; an exhausted script behaves like a cancelled
  prompt (closing stdin makes the prompt library resolve to its cancel
  symbol);
* the assembled configuration as an insertion-ordered JSON object
  (`List (String × Json)`), matching JavaScript object key order and
  `JSON.stringify` serialization order.

JavaScript-semantics notes are attached to the individual definitions.
-/

/-- A JSON value as produced by the CLI: strings, booleans, arrays and
insertion-ordered objects. -/
inductive Json where
  | str (s : String)
  | bool (b : Bool)
  | arr (xs : List Json)
  | obj (fields : List (String × Json))

/-- One user response to an interactive prompt: the cancel symbol of the
prompt library, a `confirm` boolean, a `select`/`text` string, or a
`multiselect` list of option values (in selection order). -/
inductive Ans where
  | cancel
  | ofBool (b : Bool)
  | ofStr (s : String)
  | ofList (xs : List String)
deriving DecidableEq

/-- Result of running a script-consuming computation: a value together with
the unconsumed remainder of the script, termination through `exitOnCancel`
(`process.exit(1)`), or a thrown error (carrying the remainder of the script
at the throw point) that the top-level `catch` will report. -/
inductive Step (α : Type) where
  | ok (a : α) (rest : List Ans)
  | cancelled
  | errored (msg : String) (rest : List Ans)

/-- A computation that consumes prompt answers from the script. -/
def M (α : Type) : Type := List Ans → Step α

def pureM {α : Type} (a : α) : M α := fun s => Step.ok a s

def bindM {α β : Type} (m : M α) (f : α → M β) : M β := fun s =>
  match m s with
  | Step.ok a rest => f a rest
  | Step.cancelled => Step.cancelled
  | Step.errored e rest => Step.errored e rest

/-- A thrown JavaScript error with message `e`; it propagates to the
top-level catch. -/
def throwM {α : Type} (e : String) : M α := fun s => Step.errored e s

/-- Used for a script entry whose shape cannot arise at the given prompt
(the prompt library only resolves to its own result type or the cancel
symbol); modeled as cancellation. -/
def cancelM {α : Type} : M α := fun _ => Step.cancelled

/-- One prompt call, immediately followed by `exitOnCancel`: reading the
cancel symbol (or hitting the end of the script) terminates the process. -/
def promptAnsM : M Ans := fun s =>
  match s with
  | [] => Step.cancelled
  | Ans.cancel :: _ => Step.cancelled
  | a :: rest => Step.ok a rest

/-- A `confirm` prompt followed by `exitOnCancel`. -/
def promptBoolM : M Bool :=
  bindM promptAnsM fun a =>
    match a with
    | Ans.ofBool b => pureM b
    | _ => cancelM

/-- A `select` prompt followed by `exitOnCancel`. -/
def promptStrM : M String :=
  bindM promptAnsM fun a =>
    match a with
    | Ans.ofStr v => pureM v
    | _ => cancelM

/-- A `multiselect` prompt followed by `exitOnCancel`. -/
def promptListM : M (List String) :=
  bindM promptAnsM fun a =>
    match a with
    | Ans.ofList xs => pureM xs
    | _ => cancelM

/-- The library name constant `NAME` from the source. -/
def NAME : String := "release-hub"

/-- The fixed `$schema` URL constant `CONFIG_SCHEMA_URL` from the source. -/
def CONFIG_SCHEMA_URL : String :=
  "https://cdn.jsdelivr.net/npm/release-hub@latest/schema/release-hub.schema.json"

/-- The parsed project manifest (`package.json`), restricted to the fields
the CLI reads.  `dependencies`/`devDependencies` are the parsed JSON objects
as association lists (parsed objects have unique keys); values are the
version strings.  `releaseHubField` is the truthiness of the top-level
`release-hub` field. -/
structure Manifest where
  packageManager : Option String
  dependencies : List (String × String)
  devDependencies : List (String × String)
  releaseHubField : Bool

/-- The external state one run observes: presence of each lockfile in the
working directory, the manifest (`none` when `package.json` is absent or
unparseable), the `npm_config_user_agent` environment variable, whether the
config glob `release-hub{,.config}.*` matches anything, the install
subprocess exit code (spawn-level failures modeled as a nonzero code), and
whether the final `writeFile` succeeds. -/
structure World where
  pnpmLock : Bool
  yarnLock : Bool
  bunLock : Bool
  bunLockb : Bool
  npmLock : Bool
  manifest : Option Manifest
  userAgent : Option String
  configGlobMatch : Bool
  installExitCode : Nat
  writeOk : Bool

/-- JavaScript `s.split("@")[0]`: the part of `s` before the first `@`
(the whole string when there is no `@`). -/
def takeBeforeAt (s : String) : String :=
  String.mk (s.data.takeWhile (fun c => c ≠ '@'))

/-- JavaScript `s.startsWith(p)`: character-level test that `p` is an
initial segment of `s`. -/
def strStartsWith (s p : String) : Bool :=
  p.data.isPrefixOf s.data

/-- The user-agent fallback tail of `detectPackageManager`:
`ua?.startsWith(...)` chains with final `return "npm"`.  An absent
environment variable makes every optional-chaining test `undefined`
(falsy). -/
def uaFallback : Option String → String
  | some u =>
    if strStartsWith u "pnpm" then "pnpm"
    else if strStartsWith u "yarn" then "yarn"
    else if strStartsWith u "bun" then "bun"
    else if strStartsWith u "npm" then "npm"
    else "npm"
  | none => "npm"

/-- `detectPackageManager` from the source: lockfile probes in priority
order, then the manifest `packageManager` field (the `try` block swallows a
missing or unparseable manifest and falls through; a falsy (empty) field
value also falls through), then the user-agent hint, then `"npm"`. -/
def detectPackageManager (w : World) : String :=
  if w.pnpmLock then "pnpm"
  else if w.yarnLock then "yarn"
  else if w.bunLock then "bun"
  else if w.bunLockb then "bun"
  else if w.npmLock then "npm"
  else
    match w.manifest with
    | some m =>
      match m.packageManager with
      | some p => if p ≠ "" then takeBeforeAt p else uaFallback w.userAgent
      | none => uaFallback w.userAgent
    | none => uaFallback w.userAgent

/-- `hasConfig` from the source: a config glob match, else the truthiness of
the manifest's `release-hub` field, else `false` (an unreadable manifest is
caught and reported as `false`). -/
def hasConfig (w : World) : Bool :=
  w.configGlobMatch ||
    (match w.manifest with
     | some m => m.releaseHubField
     | none => false)

/-- JavaScript `Boolean(x)` for `x` an optional string property: `undefined`
and the empty string are falsy, every other string is truthy. -/
def jsTruthyStr : Option String → Bool
  | some t => t ≠ ""
  | none => false

/-- `hasLib` from the source:
`Boolean(pkg?.dependencies?.[NAME] || pkg?.devDependencies?.[NAME])`, with
an absent or unreadable manifest caught and reported as `false`. -/
def hasLib (w : World) : Bool :=
  match w.manifest with
  | none => false
  | some m =>
    jsTruthyStr (m.dependencies.lookup NAME) ||
      jsTruthyStr (m.devDependencies.lookup NAME)

/-- The `PACKAGE_INSTALL` object from the source: a JavaScript property
lookup, `none` (`undefined`) for any key other than the four managers. -/
def PACKAGE_INSTALL (pm : String) : Option (String × List String) :=
  if pm = "npm" then some ("npm", ["i", "-D", NAME])
  else if pm = "yarn" then some ("yarn", ["add", "-D", NAME])
  else if pm = "pnpm" then some ("pnpm", ["add", "-D", NAME])
  else if pm = "bun" then some ("bun", ["i", "-D", NAME])
  else none

/-- Message of the `TypeError` thrown by
`const [cmd, cmdArgs] = PACKAGE_INSTALL[pm]` when the lookup is
`undefined` (destructuring a non-iterable). -/
def destructureMsg : String := "PACKAGE_INSTALL[pm] is not iterable"

/-- Message of the error `spawnAsync` rejects with on a nonzero exit code. -/
def installFailMsg (cmd : String) (code : Nat) : String :=
  cmd ++ " exited with code " ++ toString code

/-- Message thrown when a config already exists. -/
def configExistsMsg : String := "A Release Hub config already exists in this project"

/-- Stands for the message of the filesystem error thrown by `writeFile`
when the config write fails. -/
def writeFailMsg : String := "config write failed"

/-- The install branch of the run: skipped entirely when the library is
already installed; otherwise a confirm prompt, then either skipping or
running the install subprocess, whose nonzero exit rejects and aborts the
run.  An unknown detected manager makes the `PACKAGE_INSTALL` destructuring
throw. -/
def installPhase (w : World) : M Unit :=
  if hasLib w then pureM ()
  else
    bindM promptBoolM fun shouldInstall =>
      if shouldInstall = false then pureM ()
      else
        match PACKAGE_INSTALL (detectPackageManager w) with
        | none => throwM destructureMsg
        | some cmdPair =>
          if w.installExitCode = 0 then pureM ()
          else throwM (installFailMsg cmdPair.1 w.installExitCode)

/-- The `defaultTargetPaths` object from the source (a property lookup,
`undefined` for unknown keys). -/
def defaultTargetPaths (t : String) : Option String :=
  if t = "node" then some "./package.json"
  else if t = "jsr" then some "./jsr.json"
  else if t = "deno" then some "./deno.json"
  else if t = "webext" then some "./manifest.json"
  else none

/-- The text-prompt validator `/^(\.\/|\.\.\/)/.test(v)`: the path must
start with `./` or `../`. -/
def pathValid (r : String) : Bool :=
  strStartsWith r "./" || strStartsWith r "../"

/-- The `text` prompt for a target path with its `validate` callback: the
prompt library re-prompts while the submitted value fails validation, so the
resolved value always passes `pathValid`.  Cancellation (or a non-text
entry, or an exhausted script) cancels as usual. -/
def promptValidText : List Ans → Step String
  | [] => Step.cancelled
  | Ans.ofStr r :: rest =>
    if pathValid r then Step.ok r rest else promptValidText rest
  | _ => Step.cancelled

/-- JavaScript property assignment `o[k] = v` on a plain object: an existing
key keeps its position and gets the new value, a new key is appended. -/
def upsert {β : Type} (o : List (String × β)) (k : String) (v : β) :
    List (String × β) :=
  if o.any (fun p => p.1 = k) then
    o.map (fun p => if p.1 = k then (k, v) else p)
  else o ++ [(k, v)]

/-- The value stored by `targetsPath[t] = r || defaultPath`.  The validated
prompt never resolves to the empty string, so the fallback is unreachable;
`getD ""` stands for the (equally unreachable) `undefined` of an unknown
target. -/
def pathValue (t : String) (r : String) : String :=
  if r = "" then (defaultTargetPaths t).getD "" else r

/-- The per-target path collection loop `for (const t of askTargets)`:
one validated text prompt per selected target, in selection order, each
result assigned into the `targetsPath` object. -/
def collectPaths : List String → List (String × String) → M (List (String × String))
  | [], acc => pureM acc
  | t :: ts, acc =>
    bindM promptValidText fun r =>
      collectPaths ts (upsert acc t (pathValue t r))

/-- The guard `!group || group.size < 2` from the sync-groups loop,
evaluated under JavaScript semantics for what `multiselect` resolves to: an
array.  Every array, including the empty one, is truthy, so `!group` is
`false`; arrays have no `size` property (`size` belongs to `Set`; arrays use
`length`), so `group.size` is `undefined`, and `undefined < 2` is `false`
(the comparison goes through `NaN`).  The guard is therefore `false` for
every submitted selection, and the size-check branch is dead code. -/
def syncGroupGuard (_group : List String) : Bool := false

/-- The `while (addMore)` sync-groups loop: a multiselect of targets, the
(dead) size guard whose `continue` would re-loop without saving, the push of
the selected group, and the `add another sync group?` confirm that decides
whether to iterate again. -/
def groupsLoop (acc : List (List String)) : List Ans → Step (List (List String))
  | [] => Step.cancelled
  | Ans.cancel :: _ => Step.cancelled
  | Ans.ofBool _ :: _ => Step.cancelled
  | Ans.ofStr _ :: _ => Step.cancelled
  | Ans.ofList g :: rest =>
    if syncGroupGuard g then groupsLoop acc rest
    else
      match rest with
      | Ans.ofBool true :: rest2 => groupsLoop (acc ++ [g]) rest2
      | Ans.ofBool false :: rest2 => Step.ok (acc ++ [g]) rest2
      | [] => Step.cancelled
      | Ans.cancel :: _ => Step.cancelled
      | Ans.ofStr _ :: _ => Step.cancelled
      | Ans.ofList _ :: _ => Step.cancelled

/-- The three `if (syncMode === ...)` blocks deciding the `sync` field:
`true` for `all`, `false` for `none`, the collected groups for `groups`.
`none` means no `sync` key is assigned (unreachable through the select
prompt, whose only option values are the three modes). -/
def syncPhase (mode : String) : M (Option Json) :=
  if mode = "all" then pureM (some (Json.bool true))
  else if mode = "none" then pureM (some (Json.bool false))
  else if mode = "groups" then
    bindM (groupsLoop []) fun gs =>
      pureM (some (Json.arr (gs.map (fun g => Json.arr (g.map Json.str)))))
  else pureM none

/-- `Object.fromEntries(askTargets.map(t => [t, true]))`: the `targets`
object, one `true` entry per selected target in selection order. -/
def targetsFields (sel : List String) : List (String × Json) :=
  sel.foldl (fun o t => upsert o t (Json.bool true)) []

/-- The `targetsPath` object as serialized: each collected path as a JSON
string. -/
def strFields (ps : List (String × String)) : List (String × Json) :=
  ps.map (fun p => (p.1, Json.str p.2))

/-- The final `config` object, fields in the order the run assigns them:
`$schema` (at module init), `defaultReleaseType`, `targets`, `targetsPath`,
and `sync` when one of the sync-mode branches ran. -/
def buildConfig (rt : String) (sel : List String)
    (paths : List (String × String)) (sync : Option Json) :
    List (String × Json) :=
  [("$schema", Json.str CONFIG_SCHEMA_URL),
   ("defaultReleaseType", Json.str rt),
   ("targets", Json.obj (targetsFields sel)),
   ("targetsPath", Json.obj (strFields paths))] ++
    (match sync with
     | some v => [("sync", v)]
     | none => [])

/-- The body of the top-level `try` block, up to and including assembling
the config object: the existing-config gate, the install branch, the
release-type select, the targets multiselect, the per-target path loop, the
sync-mode select and its sub-flow. -/
def mainFlow (w : World) : M (List (String × Json)) :=
  bindM (if hasConfig w then throwM configExistsMsg else pureM ()) fun _ =>
  bindM (installPhase w) fun _ =>
  bindM promptStrM fun rt =>
  bindM promptListM fun sel =>
  bindM (collectPaths sel []) fun paths =>
  bindM promptStrM fun mode =>
  bindM (syncPhase mode) fun sync =>
  pureM (buildConfig rt sel paths sync)

/-- The whole `try` block: assemble the config, then `writeFile` it (a
write failure throws). -/
def program (w : World) : M (List (String × Json)) :=
  bindM (mainFlow w) fun cfg =>
    if w.writeOk then pureM cfg else throwM writeFailMsg

/-- How one process invocation ends: the config file written and a normal
exit; an error caught by the top-level `catch`, logged as a single message,
after which the script ends normally; or `process.exit(1)` from
`exitOnCancel`. -/
inductive RunEnd where
  | completed (cfg : List (String × Json))
  | errored (msg : String)
  | cancelled

/-- The observable outcome of one invocation on world `w` with prompt
script `s`. -/
def runEnd (w : World) (s : List Ans) : RunEnd :=
  match program w s with
  | Step.ok cfg _ => RunEnd.completed cfg
  | Step.cancelled => RunEnd.cancelled
  | Step.errored e _ => RunEnd.errored e

/-- The process exit status of each outcome: only `exitOnCancel` calls
`process.exit(1)`; after the top-level `catch` logs a fatal error the script
ends normally, so Node exits with status 0, as it does on success. -/
def RunEnd.exitCode : RunEnd → Nat
  | RunEnd.cancelled => 1
  | _ => 0

/-- The content of the config file after the run, when one was written:
`writeFile` is the only write and it is the very last step. -/
def RunEnd.written : RunEnd → Option (List (String × Json))
  | RunEnd.completed cfg => some cfg
  | _ => none

/-- A computation only accepts non-cancel answers: whenever it returns a
value, the consumed part of the script contains no cancel.  (Every prompt is
followed by `exitOnCancel`, so a cancel can never be consumed silently.) -/
def ConsumesOk {α : Type} (m : M α) : Prop :=
  ∀ s a rest, m s = Step.ok a rest → ∃ pre, s = pre ++ rest ∧ Ans.cancel ∉ pre

/-- Same accounting for a thrown error: the answers consumed before the
throw contain no cancel. -/
def ConsumesErr {α : Type} (m : M α) : Prop :=
  ∀ s e rest, m s = Step.errored e rest → ∃ pre, s = pre ++ rest ∧ Ans.cancel ∉ pre

/-- Both clauses together. -/
def Consumes {α : Type} (m : M α) : Prop := ConsumesOk m ∧ ConsumesErr m

/-- The effect of one JavaScript property assignment on an object's key
list: an existing key keeps its position, a new key is appended. -/
def keyInsert (ks : List String) (k : String) : List String :=
  if k ∈ ks then ks else ks ++ [k]

/-- A project world with `release-hub` already installed, no existing
config, no lockfiles, and a working filesystem. -/
def projWorld : World :=
  { pnpmLock := false, yarnLock := false, bunLock := false, bunLockb := false,
    npmLock := false,
    manifest := some { packageManager := none,
                       dependencies := [("release-hub", "1.0.0")],
                       devDependencies := [], releaseHubField := false },
    userAgent := none, configGlobMatch := false,
    installExitCode := 0, writeOk := true }

/-- `projWorld` with a config file already present (the glob matches). -/
def wConfigExists : World := { projWorld with configGlobMatch := true }

/-- A world with no lockfiles, a manifest declaring
`packageManager: "foo@1.0.0"`, and the library not installed. -/
def wFooPM : World :=
  { projWorld with
      manifest := some { packageManager := some "foo@1.0.0",
                         dependencies := [], devDependencies := [],
                         releaseHubField := false } }

/-- `wFooPM` with the pnpm lockfile also present: the unknown
`packageManager` field is never consulted. -/
def wPnpmFoo : World := { wFooPM with pnpmLock := true }

/-- A world whose manifest declares `release-hub` as a dependency key with
the (falsy) empty string as its version value. -/
def wEmptyDepVer : World :=
  { projWorld with
      manifest := some { packageManager := none,
                         dependencies := [("release-hub", "")],
                         devDependencies := [], releaseHubField := false } }

/-- A world with no lockfiles, no readable manifest and no user agent. -/
def wBare : World := { projWorld with manifest := none }

/-- `wBare` with only the legacy bun lockfile present. -/
def wBunLockb : World := { wBare with bunLockb := true }

/-- The prompt script of the spec's assembly example: release type
`minor`, targets `node` and `deno`, their default paths, sync mode `all`. -/
def minorScript : List Ans :=
  [Ans.ofStr "minor", Ans.ofList ["node", "deno"],
   Ans.ofStr "./package.json", Ans.ofStr "./deno.json", Ans.ofStr "all"]

/-- A script that chooses sync mode `groups` and submits a single-target
selection, then declines to add another group. -/
def singletonGroupScript : List Ans :=
  [Ans.ofStr "patch", Ans.ofList ["node"], Ans.ofStr "./package.json",
   Ans.ofStr "groups", Ans.ofList ["node"], Ans.ofBool false]

/-- A script that selects no targets at all. -/
def emptySelScript : List Ans :=
  [Ans.ofStr "patch", Ans.ofList [], Ans.ofStr "all"]

theorem consumes_pureM {α : Type} (a : α) : Consumes (pureM a) := by
  constructor
  · intro s x rest h
    simp only [pureM, Step.ok.injEq] at h
    exact ⟨[], by simp [h.2], by simp⟩
  · intro s e rest h
    simp [pureM] at h

theorem consumes_cancelM {α : Type} : Consumes (cancelM : M α) := by
  constructor <;> intro s x rest h <;> simp [cancelM] at h

theorem consumes_throwM {α : Type} (e : String) : Consumes (throwM e : M α) := by
  constructor
  · intro s x rest h
    simp [throwM] at h
  · intro s e2 rest h
    simp only [throwM, Step.errored.injEq] at h
    exact ⟨[], by simp [h.2], by simp⟩

theorem consumes_bindM {α β : Type} {m : M α} {f : α → M β}
    (hm : Consumes m) (hf : ∀ a, Consumes (f a)) : Consumes (bindM m f) := by
  constructor
  · intro s b rest h
    cases hms : m s with
    | ok a s2 =>
      have h2 : f a s2 = Step.ok b rest := by simpa [bindM, hms] using h
      obtain ⟨pre1, hpre1, hc1⟩ := hm.1 s a s2 hms
      obtain ⟨pre2, hpre2, hc2⟩ := (hf a).1 s2 b rest h2
      refine ⟨pre1 ++ pre2, ?_, ?_⟩
      · simp [hpre1, hpre2]
      · simp [hc1, hc2]
    | cancelled => simp [bindM, hms] at h
    | errored e s2 => simp [bindM, hms] at h
  · intro s e rest h
    cases hms : m s with
    | ok a s2 =>
      have h2 : f a s2 = Step.errored e rest := by simpa [bindM, hms] using h
      obtain ⟨pre1, hpre1, hc1⟩ := hm.1 s a s2 hms
      obtain ⟨pre2, hpre2, hc2⟩ := (hf a).2 s2 e rest h2
      refine ⟨pre1 ++ pre2, ?_, ?_⟩
      · simp [hpre1, hpre2]
      · simp [hc1, hc2]
    | cancelled => simp [bindM, hms] at h
    | errored e2 s2 =>
      have h2 : e2 = e ∧ s2 = rest := by
        have := h
        simp only [bindM, hms, Step.errored.injEq] at this
        exact this
      obtain ⟨pre1, hpre1, hc1⟩ := hm.2 s e2 s2 hms
      exact ⟨pre1, by simp [hpre1, h2.2], hc1⟩

theorem consumes_promptAnsM : Consumes promptAnsM := by
  constructor
  · intro s a rest h
    match s with
    | [] => simp [promptAnsM] at h
    | Ans.cancel :: xs => simp [promptAnsM] at h
    | Ans.ofBool b :: xs =>
      simp only [promptAnsM, Step.ok.injEq] at h
      exact ⟨[Ans.ofBool b], by simp [h.2], by simp⟩
    | Ans.ofStr v :: xs =>
      simp only [promptAnsM, Step.ok.injEq] at h
      exact ⟨[Ans.ofStr v], by simp [h.2], by simp⟩
    | Ans.ofList l :: xs =>
      simp only [promptAnsM, Step.ok.injEq] at h
      exact ⟨[Ans.ofList l], by simp [h.2], by simp⟩
  · intro s e rest h
    match s with
    | [] => simp [promptAnsM] at h
    | Ans.cancel :: xs => simp [promptAnsM] at h
    | Ans.ofBool b :: xs => simp [promptAnsM] at h
    | Ans.ofStr v :: xs => simp [promptAnsM] at h
    | Ans.ofList l :: xs => simp [promptAnsM] at h

theorem consumes_promptBoolM : Consumes promptBoolM := by
  refine consumes_bindM consumes_promptAnsM fun a => ?_
  cases a
  case ofBool b => exact consumes_pureM b
  all_goals exact consumes_cancelM

theorem consumes_promptStrM : Consumes promptStrM := by
  refine consumes_bindM consumes_promptAnsM fun a => ?_
  cases a
  case ofStr v => exact consumes_pureM v
  all_goals exact consumes_cancelM

theorem consumes_promptListM : Consumes promptListM := by
  refine consumes_bindM consumes_promptAnsM fun a => ?_
  cases a
  case ofList xs => exact consumes_pureM xs
  all_goals exact consumes_cancelM

theorem consumes_promptValidText : Consumes promptValidText := by
  constructor
  · intro s
    induction s with
    | nil => intro a rest h; simp [promptValidText] at h
    | cons x xs ih =>
      intro a rest h
      cases x with
      | ofStr r =>
        cases hv : pathValid r with
        | true =>
          simp only [promptValidText, hv, if_true, Step.ok.injEq] at h
          exact ⟨[Ans.ofStr r], by simp [h.2], by simp⟩
        | false =>
          simp only [promptValidText, hv, if_false] at h
          obtain ⟨pre, hpre, hc⟩ := ih a rest h
          exact ⟨Ans.ofStr r :: pre, by simp [hpre], by simp [hc]⟩
      | cancel => simp [promptValidText] at h
      | ofBool b => simp [promptValidText] at h
      | ofList l => simp [promptValidText] at h
  · intro s
    induction s with
    | nil => intro e rest h; simp [promptValidText] at h
    | cons x xs ih =>
      intro e rest h
      cases x with
      | ofStr r =>
        cases hv : pathValid r with
        | true => simp [promptValidText, hv] at h
        | false =>
          simp only [promptValidText, hv, if_false] at h
          obtain ⟨pre, hpre, hc⟩ := ih e rest h
          exact ⟨Ans.ofStr r :: pre, by simp [hpre], by simp [hc]⟩
      | cancel => simp [promptValidText] at h
      | ofBool b => simp [promptValidText] at h
      | ofList l => simp [promptValidText] at h

theorem consumes_collectPaths (ts : List String) :
    ∀ acc, Consumes (collectPaths ts acc) := by
  induction ts with
  | nil => intro acc; exact consumes_pureM acc
  | cons t ts ih =>
    intro acc
    exact consumes_bindM consumes_promptValidText fun r => ih _

theorem groupsLoop_consumes_aux :
    ∀ (n : Nat) (s : List Ans), s.length ≤ n → ∀ (acc : List (List String)),
      (∀ a rest, groupsLoop acc s = Step.ok a rest →
        ∃ pre, s = pre ++ rest ∧ Ans.cancel ∉ pre) ∧
      (∀ e rest, groupsLoop acc s = Step.errored e rest → False) := by
  intro n
  induction n with
  | zero =>
    intro s hs acc
    have hnil : s = [] := List.eq_nil_of_length_eq_zero (Nat.le_zero.mp hs)
    subst hnil
    constructor
    · intro a rest h; simp [groupsLoop] at h
    · intro e rest h; simp [groupsLoop] at h
  | succ n ih =>
    intro s hs acc
    constructor
    · intro a rest h
      match s with
      | [] => simp [groupsLoop] at h
      | Ans.cancel :: xs => simp [groupsLoop] at h
      | Ans.ofBool b :: xs => simp [groupsLoop] at h
      | Ans.ofStr v :: xs => simp [groupsLoop] at h
      | Ans.ofList g :: xs =>
        match xs with
        | [] => simp [groupsLoop, syncGroupGuard] at h
        | Ans.cancel :: ys => simp [groupsLoop, syncGroupGuard] at h
        | Ans.ofStr v :: ys => simp [groupsLoop, syncGroupGuard] at h
        | Ans.ofList l :: ys => simp [groupsLoop, syncGroupGuard] at h
        | Ans.ofBool true :: ys =>
          simp only [groupsLoop, syncGroupGuard, Bool.false_eq_true,
            if_false] at h
          have hlen : ys.length ≤ n := by
            simp only [List.length_cons] at hs
            omega
          obtain ⟨pre, hpre, hc⟩ := ((ih ys hlen (acc ++ [g])).1) a rest h
          exact ⟨Ans.ofList g :: Ans.ofBool true :: pre, by simp [hpre],
            by simp [hc]⟩
        | Ans.ofBool false :: ys =>
          simp only [groupsLoop, syncGroupGuard, Bool.false_eq_true, if_false,
            Step.ok.injEq] at h
          exact ⟨[Ans.ofList g, Ans.ofBool false], by simp [h.2], by simp⟩
    · intro e rest h
      match s with
      | [] => simp [groupsLoop] at h
      | Ans.cancel :: xs => simp [groupsLoop] at h
      | Ans.ofBool b :: xs => simp [groupsLoop] at h
      | Ans.ofStr v :: xs => simp [groupsLoop] at h
      | Ans.ofList g :: xs =>
        match xs with
        | [] => simp [groupsLoop, syncGroupGuard] at h
        | Ans.cancel :: ys => simp [groupsLoop, syncGroupGuard] at h
        | Ans.ofStr v :: ys => simp [groupsLoop, syncGroupGuard] at h
        | Ans.ofList l :: ys => simp [groupsLoop, syncGroupGuard] at h
        | Ans.ofBool true :: ys =>
          simp only [groupsLoop, syncGroupGuard, Bool.false_eq_true,
            if_false] at h
          have hlen : ys.length ≤ n := by
            simp only [List.length_cons] at hs
            omega
          exact ((ih ys hlen (acc ++ [g])).2) e rest h
        | Ans.ofBool false :: ys => simp [groupsLoop, syncGroupGuard] at h

theorem consumes_groupsLoop (acc : List (List String)) :
    Consumes (fun s => groupsLoop acc s) := by
  constructor
  · intro s a rest h
    exact ((groupsLoop_consumes_aux s.length s (Nat.le_refl _) acc).1) a rest h
  · intro s e rest h
    exact absurd h (by
      intro hh
      exact ((groupsLoop_consumes_aux s.length s (Nat.le_refl _) acc).2) e rest hh)

theorem consumes_syncPhase (mode : String) : Consumes (syncPhase mode) := by
  unfold syncPhase
  by_cases h1 : mode = "all"
  · simp only [h1, if_true]; exact consumes_pureM _
  · simp only [h1, if_false]
    by_cases h2 : mode = "none"
    · simp only [h2, if_true]; exact consumes_pureM _
    · simp only [h2, if_false]
      by_cases h3 : mode = "groups"
      · simp only [h3, if_true]
        exact consumes_bindM (consumes_groupsLoop []) fun gs => consumes_pureM _
      · simp only [h3, if_false]; exact consumes_pureM _

theorem consumes_installPhase (w : World) : Consumes (installPhase w) := by
  unfold installPhase
  by_cases hl : hasLib w
  · simp only [hl, if_true]; exact consumes_pureM _
  · simp only [hl, if_false]
    refine consumes_bindM consumes_promptBoolM fun b => ?_
    by_cases hb : b = false
    · simp only [hb, if_true]; exact consumes_pureM _
    · simp only [hb, if_false]
      cases PACKAGE_INSTALL (detectPackageManager w) with
      | none => exact consumes_throwM _
      | some cmdPair =>
        by_cases hc : w.installExitCode = 0
        · simp only [hc, if_true]; exact consumes_pureM _
        · simp only [hc, if_false]; exact consumes_throwM _

theorem consumes_mainFlow (w : World) : Consumes (mainFlow w) := by
  unfold mainFlow
  refine consumes_bindM ?_ fun _ => ?_
  · by_cases hc : hasConfig w
    · simp only [hc, if_true]; exact consumes_throwM _
    · simp only [hc, if_false]; exact consumes_pureM _
  · refine consumes_bindM (consumes_installPhase w) fun _ => ?_
    refine consumes_bindM consumes_promptStrM fun rt => ?_
    refine consumes_bindM consumes_promptListM fun sel => ?_
    refine consumes_bindM (consumes_collectPaths sel []) fun paths => ?_
    refine consumes_bindM consumes_promptStrM fun mode => ?_
    refine consumes_bindM (consumes_syncPhase mode) fun sync => ?_
    exact consumes_pureM _

theorem consumes_program (w : World) : Consumes (program w) := by
  unfold program
  refine consumes_bindM (consumes_mainFlow w) fun cfg => ?_
  by_cases hw : w.writeOk
  · simp only [hw, if_true]; exact consumes_pureM _
  · simp only [hw, if_false]; exact consumes_throwM _

theorem bindM_ok_inv {α β : Type} {m : M α} {f : α → M β} {s : List Ans}
    {b : β} {r : List Ans} (h : bindM m f s = Step.ok b r) :
    ∃ a s2, m s = Step.ok a s2 ∧ f a s2 = Step.ok b r := by
  cases hms : m s with
  | ok a s2 => exact ⟨a, s2, rfl, by simpa [bindM, hms] using h⟩
  | cancelled => simp [bindM, hms] at h
  | errored e s2 => simp [bindM, hms] at h

theorem map_fst_replace {β : Type} (o : List (String × β)) (k : String) (v : β) :
    (o.map (fun p => if p.1 = k then (k, v) else p)).map Prod.fst =
      o.map Prod.fst := by
  induction o with
  | nil => rfl
  | cons q qs ih =>
    by_cases hq : q.1 = k
    · simp [hq, ih]
    · simp [hq, ih]

theorem any_key_iff_mem {β : Type} (o : List (String × β)) (k : String) :
    o.any (fun p => p.1 = k) = true ↔ k ∈ o.map Prod.fst := by
  simp only [List.any_eq_true, decide_eq_true_eq, List.mem_map]

theorem upsert_keys {β : Type} (o : List (String × β)) (k : String) (v : β) :
    (upsert o k v).map Prod.fst = keyInsert (o.map Prod.fst) k := by
  unfold upsert keyInsert
  by_cases hk : o.any (fun p => p.1 = k) = true
  · have hmem : k ∈ o.map Prod.fst := (any_key_iff_mem o k).mp hk
    simp only [hk, if_true, hmem, map_fst_replace]
  · have hmem : k ∉ o.map Prod.fst := fun hc =>
      hk ((any_key_iff_mem o k).mpr hc)
    simp [hk, hmem]

theorem foldl_upsert_keys {β : Type} (ts : List String) (f : String → β) :
    ∀ o : List (String × β),
      ((ts.foldl (fun o t => upsert o t (f t)) o).map Prod.fst)
        = ts.foldl keyInsert (o.map Prod.fst) := by
  induction ts with
  | nil => intro o; rfl
  | cons t ts ih =>
    intro o
    simp only [List.foldl_cons]
    rw [ih, upsert_keys]

theorem targetsFields_keys (sel : List String) :
    (targetsFields sel).map Prod.fst = sel.foldl keyInsert [] :=
  foldl_upsert_keys sel (fun _ => Json.bool true) []

theorem strFields_keys (ps : List (String × String)) :
    (strFields ps).map Prod.fst = ps.map Prod.fst := by
  simp [strFields, List.map_map, Function.comp]

theorem collectPaths_keys :
    ∀ (ts : List String) (acc : List (String × String)) (s : List Ans)
      (out : List (String × String)) (rest : List Ans),
      collectPaths ts acc s = Step.ok out rest →
      out.map Prod.fst = ts.foldl keyInsert (acc.map Prod.fst) := by
  intro ts
  induction ts with
  | nil =>
    intro acc s out rest h
    simp only [collectPaths, pureM, Step.ok.injEq] at h
    simp [← h.1]
  | cons t ts ih =>
    intro acc s out rest h
    simp only [collectPaths] at h
    obtain ⟨r, s2, h1, h2⟩ := bindM_ok_inv h
    have h3 := ih (upsert acc t (pathValue t r)) s2 out rest h2
    rw [h3, upsert_keys]
    rfl

theorem program_ok_shape (w : World) (s : List Ans)
    (cfg : List (String × Json)) (rest : List Ans)
    (h : program w s = Step.ok cfg rest) :
    ∃ rt sel paths sync s2 rest2,
      collectPaths sel [] s2 = Step.ok paths rest2 ∧
      cfg = buildConfig rt sel paths sync := by
  unfold program at h
  obtain ⟨cfg1, s1, hmain, hwrite⟩ := bindM_ok_inv h
  have hcfg1 : cfg1 = cfg := by
    by_cases hw : w.writeOk
    · rw [if_pos hw] at hwrite
      simp only [pureM, Step.ok.injEq] at hwrite
      exact hwrite.1
    · rw [if_neg hw] at hwrite
      simp [throwM] at hwrite
  unfold mainFlow at hmain
  obtain ⟨u1, t1, hgate, h2⟩ := bindM_ok_inv hmain
  obtain ⟨u2, t2, hinstall, h3⟩ := bindM_ok_inv h2
  obtain ⟨rt, t3, hrt, h4⟩ := bindM_ok_inv h3
  obtain ⟨sel, t4, hsel, h5⟩ := bindM_ok_inv h4
  obtain ⟨paths, t5, hpaths, h6⟩ := bindM_ok_inv h5
  obtain ⟨mode, t6, hmode, h7⟩ := bindM_ok_inv h6
  obtain ⟨sync, t7, hsync, h8⟩ := bindM_ok_inv h7
  refine ⟨rt, sel, paths, sync, t4, t5, hpaths, ?_⟩
  simp only [pureM, Step.ok.injEq] at h8
  rw [← hcfg1, ← h8.1]

theorem uaFallback_mem (o : Option String) :
    uaFallback o ∈ (["npm", "yarn", "pnpm", "bun"] : List String) := by
  cases o with
  | none => simp [uaFallback]
  | some u =>
    simp only [uaFallback]
    split_ifs <;> simp

theorem detect_pm_no_locks (w : World)
    (hl1 : w.pnpmLock = false) (hl2 : w.yarnLock = false)
    (hl3 : w.bunLock = false) (hl4 : w.bunLockb = false)
    (hl5 : w.npmLock = false) :
    detectPackageManager w =
      (match w.manifest with
       | some m =>
         match m.packageManager with
         | some p =>
           if p ≠ "" then takeBeforeAt p else uaFallback w.userAgent
         | none => uaFallback w.userAgent
       | none => uaFallback w.userAgent) := by
  simp only [detectPackageManager, hl1, hl2, hl3, hl4, hl5,
    Bool.false_eq_true, if_false]

theorem jsTruthyStr_iff (o : Option String) :
    jsTruthyStr o = true ↔ ∃ v, o = some v ∧ v ≠ "" := by
  cases o with
  | none => simp [jsTruthyStr]
  | some t => simp [jsTruthyStr]

/-- Claim C3 (counterexample): with no lockfiles and a manifest declaring
`packageManager: "foo@1.0.0"`, `detectPackageManager` returns `"foo"`, a
value outside the closed enumeration the claim asserts for every project
state. -/
theorem detect_pm_outside_enumeration :
    detectPackageManager wFooPM = "foo" ∧
    "foo" ∉ (["npm", "yarn", "pnpm", "bun"] : List String) := by
  exact ⟨rfl, by decide⟩

/-- Claim C3 (amended): `detectPackageManager` returns a member of the
closed enumeration for every project state, except that when no lockfile is
present and the manifest's truthy `packageManager` field is consulted, the
part of that field before `@` is returned verbatim — so membership holds
whenever that part, in the only situation where it is consulted (all five
lockfiles absent), lies in the enumeration; with any lockfile present,
membership holds unconditionally, whatever the manifest says. -/
theorem detect_pm_enumeration (w : World)
    (h : w.pnpmLock = false → w.yarnLock = false → w.bunLock = false →
      w.bunLockb = false → w.npmLock = false →
      ∀ m p, w.manifest = some m → m.packageManager = some p → p ≠ "" →
        takeBeforeAt p ∈ (["npm", "yarn", "pnpm", "bun"] : List String)) :
    detectPackageManager w ∈ (["npm", "yarn", "pnpm", "bun"] : List String) := by
  unfold detectPackageManager
  split_ifs with h1 h2 h3 h4 h5
  · simp
  · simp
  · simp
  · simp
  · simp
  · have hfield := h (by simpa using h1) (by simpa using h2) (by simpa using h3)
      (by simpa using h4) (by simpa using h5)
    cases hm : w.manifest with
    | none => exact uaFallback_mem w.userAgent
    | some m =>
      show (match m.packageManager with
            | some p =>
              if p ≠ "" then takeBeforeAt p else uaFallback w.userAgent
            | none => uaFallback w.userAgent) ∈
          (["npm", "yarn", "pnpm", "bun"] : List String)
      cases hpm : m.packageManager with
      | none => exact uaFallback_mem w.userAgent
      | some p =>
        show (if p ≠ "" then takeBeforeAt p else uaFallback w.userAgent) ∈
          (["npm", "yarn", "pnpm", "bun"] : List String)
        by_cases hp : p ≠ ""
        · rw [if_pos hp]
          exact hfield m p hm hpm hp
        · rw [if_neg hp]
          exact uaFallback_mem w.userAgent

/-- Witness for the amended C3: a bare project (no lockfiles, no manifest,
no user agent) detects a manager inside the enumeration, and so does a
project whose pnpm lockfile shadows an unknown `packageManager: "foo@..."`
field — there the hypothesis is vacuous because a lockfile is present. -/
theorem detect_pm_enumeration_witness :
    detectPackageManager wBare ∈ (["npm", "yarn", "pnpm", "bun"] : List String) ∧
    detectPackageManager wPnpmFoo ∈
      (["npm", "yarn", "pnpm", "bun"] : List String) := by
  constructor
  · apply detect_pm_enumeration wBare
    intro _ _ _ _ _ m p hm hpm hp
    exact Option.noConfusion hm
  · apply detect_pm_enumeration wPnpmFoo
    intro hf
    exact Bool.noConfusion hf

/-- Claim C4: when at least one lockfile is present, detection returns the
single highest-priority match under the fixed order
`pnpm-lock.yaml > yarn.lock > bun.lock > bun.lockb > package-lock.json`,
and the result is independent of the manifest and the user-agent hint (the
later fallbacks are not consulted). -/
theorem detect_pm_lockfile_priority (w : World)
    (h : w.pnpmLock = true ∨ w.yarnLock = true ∨ w.bunLock = true ∨
      w.bunLockb = true ∨ w.npmLock = true) :
    detectPackageManager w =
      (if w.pnpmLock then "pnpm"
       else if w.yarnLock then "yarn"
       else if w.bunLock then "bun"
       else if w.bunLockb then "bun"
       else "npm") ∧
    (∀ m u,
      detectPackageManager { w with manifest := m, userAgent := u } =
        detectPackageManager w) := by
  obtain ⟨p, y, b1, b2, n, man, ua, g, ic, wr⟩ := w
  cases p <;> cases y <;> cases b1 <;> cases b2 <;> cases n <;>
    simp_all [detectPackageManager]

/-- Witness for C4: only the legacy bun lockfile present detects bun. -/
theorem detect_pm_lockfile_priority_witness :
    detectPackageManager wBunLockb = "bun" := by
  have h := detect_pm_lockfile_priority wBunLockb
    (Or.inr (Or.inr (Or.inr (Or.inl rfl))))
  rw [h.1]
  rfl

/-- Claim C7: with no recognized lockfile present, detection falls back to
the manifest's truthy `packageManager` field (the part before `@`), then to
the user-agent hint matched by its starting characters against pnpm, yarn,
bun, npm, and finally to the default npm when the hint is absent or
unrecognized; an unreadable manifest (or an absent or falsy field) falls
through to the hint. -/
theorem detect_pm_fallback_chain (w : World)
    (hl1 : w.pnpmLock = false) (hl2 : w.yarnLock = false)
    (hl3 : w.bunLock = false) (hl4 : w.bunLockb = false)
    (hl5 : w.npmLock = false) :
    (∀ m p, w.manifest = some m → m.packageManager = some p → p ≠ "" →
      detectPackageManager w = takeBeforeAt p) ∧
    ((w.manifest = none ∨
        ∃ m, w.manifest = some m ∧
          (m.packageManager = none ∨ m.packageManager = some "")) →
      (w.userAgent = none → detectPackageManager w = "npm") ∧
      (∀ u, w.userAgent = some u →
        detectPackageManager w =
          if strStartsWith u "pnpm" then "pnpm"
          else if strStartsWith u "yarn" then "yarn"
          else if strStartsWith u "bun" then "bun"
          else if strStartsWith u "npm" then "npm"
          else "npm")) := by
  have hd := detect_pm_no_locks w hl1 hl2 hl3 hl4 hl5
  constructor
  · intro m p hm hpm hp
    rw [hd]
    simp only [hm, hpm]
    rw [if_pos hp]
  · intro hcase
    have hua : detectPackageManager w = uaFallback w.userAgent := by
      rw [hd]
      rcases hcase with hm | ⟨m, hm, hpm⟩
      · simp only [hm]
      · rcases hpm with hpm | hpm
        · simp only [hm, hpm]
        · simp only [hm, hpm]
          simp
    constructor
    · intro huser
      rw [hua, huser]
      rfl
    · intro u huser
      rw [hua, huser]
      rfl

/-- Witness for C7: a bare project with no lockfiles, no manifest and no
user agent detects npm. -/
theorem detect_pm_fallback_chain_witness :
    detectPackageManager wBare = "npm" := by
  have h := detect_pm_fallback_chain wBare rfl rfl rfl rfl rfl
  exact (h.2 (Or.inl rfl)).1 rfl

/-- Claim C9 (counterexample): `release-hub` appears as a key of the
manifest's `dependencies`, yet `hasLib` reports false, because the key's
value is the empty string, which is falsy in
`Boolean(pkg?.dependencies?.[NAME] || ...)`. -/
theorem hasLib_key_without_truthy_value :
    (wEmptyDepVer.manifest.map fun m => m.dependencies.map Prod.fst) =
      some ["release-hub"] ∧
    hasLib wEmptyDepVer = false := ⟨rfl, rfl⟩

/-- Claim C9 (amended): `hasLib` returns true iff the library name is a key
of `dependencies` or `devDependencies` with a truthy (non-empty-string)
value, and returns false — rather than raising — when the manifest is
absent or unreadable. -/
theorem hasLib_truthy_dep_iff (w : World) :
    (hasLib w = true ↔
      ∃ m, w.manifest = some m ∧
        ((∃ v, m.dependencies.lookup NAME = some v ∧ v ≠ "") ∨
         (∃ v, m.devDependencies.lookup NAME = some v ∧ v ≠ ""))) ∧
    (w.manifest = none → hasLib w = false) := by
  constructor
  · cases hm : w.manifest with
    | none => simp [hasLib, hm]
    | some m =>
      simp only [hasLib, hm, Bool.or_eq_true, jsTruthyStr_iff]
      constructor
      · rintro (⟨v, hv, hne⟩ | ⟨v, hv, hne⟩)
        · exact ⟨m, rfl, Or.inl ⟨v, hv, hne⟩⟩
        · exact ⟨m, rfl, Or.inr ⟨v, hv, hne⟩⟩
      · rintro ⟨m2, hm2, hcase⟩
        obtain rfl : m = m2 := Option.some_inj.mp hm2
        exact hcase
  · intro hm
    simp [hasLib, hm]

/-- Witness for C9: a truthy dependency entry reports installed; an absent
manifest reports not installed. -/
theorem hasLib_truthy_dep_iff_witness :
    hasLib projWorld = true ∧ hasLib wBare = false := by
  constructor
  · exact (hasLib_truthy_dep_iff projWorld).1.mpr
      ⟨_, rfl, Or.inl ⟨"1.0.0", rfl, by decide⟩⟩
  · exact (hasLib_truthy_dep_iff wBare).2 rfl

/-- Claim C5: assembling a config with release type `minor`, targets
`node` and `deno`, their two paths, and sync mode `all` produces exactly
the five-field JSON object in construction order. -/
theorem assemble_minor_node_deno_config :
    runEnd projWorld minorScript =
      RunEnd.completed
        [("$schema", Json.str CONFIG_SCHEMA_URL),
         ("defaultReleaseType", Json.str "minor"),
         ("targets", Json.obj [("node", Json.bool true),
                               ("deno", Json.bool true)]),
         ("targetsPath", Json.obj [("node", Json.str "./package.json"),
                                   ("deno", Json.str "./deno.json")]),
         ("sync", Json.bool true)] := rfl

/-- Claim C1 (counterexample): with a release config already present the
run ends in the caught fatal error, reported as a single message — yet the
process exit status is 0, not nonzero as the claim asserts for every fatal
error. -/
theorem fatal_error_exits_zero :
    runEnd wConfigExists [] = RunEnd.errored configExistsMsg ∧
    RunEnd.exitCode (runEnd wConfigExists []) = 0 := ⟨rfl, rfl⟩

/-- Claim C1 (amended): every fatal error (config exists, install failure,
write failure) is caught at the top level and reported as a single message,
after which the process exits 0 just as on success; only user cancellation
produces a nonzero exit status (1).  In all non-success outcomes no config
is written. -/
theorem exit_status_by_outcome (w : World) (s : List Ans) :
    (∀ e, runEnd w s = RunEnd.errored e →
      RunEnd.exitCode (runEnd w s) = 0 ∧ RunEnd.written (runEnd w s) = none) ∧
    (∀ cfg, runEnd w s = RunEnd.completed cfg →
      RunEnd.exitCode (runEnd w s) = 0) ∧
    (runEnd w s = RunEnd.cancelled → RunEnd.exitCode (runEnd w s) = 1) ∧
    (hasConfig w = true → runEnd w s = RunEnd.errored configExistsMsg) := by
  refine ⟨?_, ?_, ?_, ?_⟩
  · intro e h
    rw [h]
    exact ⟨rfl, rfl⟩
  · intro cfg h
    rw [h]
    rfl
  · intro h
    rw [h]
    rfl
  · intro hc
    simp [runEnd, program, mainFlow, bindM, throwM, hc]

/-- Witness for the amended C1: the existing-config world errors with the
single message and still exits 0, writing nothing. -/
theorem exit_status_by_outcome_witness :
    (RunEnd.exitCode (runEnd wConfigExists []) = 0 ∧
      RunEnd.written (runEnd wConfigExists []) = none) ∧
    runEnd wConfigExists [] = RunEnd.errored configExistsMsg := by
  have h := exit_status_by_outcome wConfigExists []
  exact ⟨h.1 configExistsMsg rfl, h.2.2.2 rfl⟩

/-- Claim C2 (code-bug evidence): submitting a single-target selection in
the sync-groups sub-flow is accepted, not rejected — the group `["node"]`
of size 1 is appended and the run completes with `sync: [["node"]]`,
contradicting the code's own guard intent and log messages (`"A sync group
must contain at least 2 targets."`); the guard `!group || group.size < 2`
is dead code because `multiselect` resolves to an array (see
`syncGroupGuard`). -/
theorem singleton_sync_group_accepted :
    runEnd projWorld singletonGroupScript =
      RunEnd.completed
        [("$schema", Json.str CONFIG_SCHEMA_URL),
         ("defaultReleaseType", Json.str "patch"),
         ("targets", Json.obj [("node", Json.bool true)]),
         ("targetsPath", Json.obj [("node", Json.str "./package.json")]),
         ("sync", Json.arr [Json.arr [Json.str "node"]])] := rfl

/-- Claim C6: a cancel answer consumed at any reached prompt forces the
cancelled outcome — whenever the run returns a value or throws, the
consumed prefix of the script contains no cancel (the check runs after
every single prompt call) — and the cancelled outcome exits with status 1
with the config file never written (the write is the final step and is not
reached). -/
theorem cancel_terminates_without_write (w : World) (s : List Ans) :
    (∀ cfg rest, program w s = Step.ok cfg rest →
      ∃ pre, s = pre ++ rest ∧ Ans.cancel ∉ pre) ∧
    (∀ e rest, program w s = Step.errored e rest →
      ∃ pre, s = pre ++ rest ∧ Ans.cancel ∉ pre) ∧
    (runEnd w s = RunEnd.cancelled →
      RunEnd.exitCode (runEnd w s) = 1 ∧ RunEnd.written (runEnd w s) = none) := by
  refine ⟨?_, ?_, ?_⟩
  · intro cfg rest h
    exact (consumes_program w).1 s cfg rest h
  · intro e rest h
    exact (consumes_program w).2 s e rest h
  · intro h
    rw [h]
    exact ⟨rfl, rfl⟩

/-- Witness for C6: the errored run consumed no cancel, and cancelling at
the very first prompt of a clean project exits 1 with nothing written. -/
theorem cancel_terminates_without_write_witness :
    (∃ pre, ([] : List Ans) = pre ++ [] ∧ Ans.cancel ∉ pre) ∧
    (RunEnd.exitCode (runEnd projWorld [Ans.cancel]) = 1 ∧
      RunEnd.written (runEnd projWorld [Ans.cancel]) = none) := by
  constructor
  · exact (cancel_terminates_without_write wConfigExists []).2.1
      configExistsMsg [] rfl
  · exact (cancel_terminates_without_write projWorld [Ans.cancel]).2.2 rfl

/-- Claim C8: every completed run writes a config whose `targetsPath` keys
are exactly the `targets` keys — both objects are built from the one
submitted selection `sel`, in selection order — and every `targetsPath`
value is a JSON string (`strFields`).  This holds for every selection the
user can make, including the empty one. -/
theorem targetsPath_keys_match_targets (w : World) (s : List Ans)
    (cfg : List (String × Json)) (rest : List Ans)
    (h : program w s = Step.ok cfg rest) :
    ∃ rt sel paths sync,
      cfg = buildConfig rt sel paths sync ∧
      (targetsFields sel).map Prod.fst = (strFields paths).map Prod.fst := by
  obtain ⟨rt, sel, paths, sync, s2, rest2, hpaths, hcfg⟩ :=
    program_ok_shape w s cfg rest h
  refine ⟨rt, sel, paths, sync, hcfg, ?_⟩
  rw [targetsFields_keys, strFields_keys]
  have h2 := collectPaths_keys sel [] s2 paths rest2 hpaths
  simpa using h2.symm

/-- Witness for C8: a completed run with the empty selection yields a config
whose `targets` and `targetsPath` objects are both empty. -/
theorem targetsPath_keys_match_targets_witness :
    ∃ rt sel paths sync,
      ([("$schema", Json.str CONFIG_SCHEMA_URL),
        ("defaultReleaseType", Json.str "patch"),
        ("targets", Json.obj []),
        ("targetsPath", Json.obj []),
        ("sync", Json.bool true)] : List (String × Json)) =
        buildConfig rt sel paths sync ∧
      (targetsFields sel).map Prod.fst = (strFields paths).map Prod.fst :=
  targetsPath_keys_match_targets projWorld emptySelScript _ [] rfl

/-- Claim C10: with no lockfile, a manifest `packageManager` naming the
unknown manager `foo`, the library not installed, and the user confirming
installation, the `PACKAGE_INSTALL[pm]` lookup is `undefined`, destructuring
it throws, and the run aborts through the top-level catch without writing a
config file — whatever answers would have followed. -/
theorem unknown_pm_install_throws (tail : List Ans) :
    detectPackageManager wFooPM = "foo" ∧
    PACKAGE_INSTALL "foo" = none ∧
    runEnd wFooPM (Ans.ofBool true :: tail) = RunEnd.errored destructureMsg ∧
    RunEnd.written (runEnd wFooPM (Ans.ofBool true :: tail)) = none :=
  ⟨rfl, rfl, rfl, rfl⟩

/-- Witness for C10: the failing input run, with no further answers. -/
theorem unknown_pm_install_throws_witness :
    runEnd wFooPM [Ans.ofBool true] = RunEnd.errored destructureMsg :=
  (unknown_pm_install_throws []).2.2.1
